import Mathlib

/-!
Verification of the filter-list update and consent subsystem of the
AdGuard browser extension, shallowly embedded from
`src/Extension/src/background/storages/annoyances-consent.ts`.

Timestamps and durations are modelled as `Int` (JavaScript numbers used as
millisecond epoch times); filter identifiers are `Nat`; the Version Store is
an association list keyed by filter id.
-/

namespace AGB

/-- `FilterVersionRecord` from the data model: one per filter identifier.
`expires` is in seconds; the timestamps are in milliseconds. -/
structure FilterVersionRecord where
  version : String
  expires : Int
  lastUpdateTime : Int
  lastCheckTime : Int
  diffPath : Option String := none
deriving DecidableEq, Repr

/-- `FilterUpdateDetail` from the source: an ephemeral per-cycle task. -/
structure FilterUpdateDetail where
  filterId : Nat
  force : Bool
deriving DecidableEq, Repr

/-- Filter metadata as returned by a successful per-filter update. -/
structure FilterMetadata where
  filterId : Nat
  version : String
deriving DecidableEq, Repr

/-- The Version Store contents (`filterVersionStorage.getData()`):
an association list from filter id to its `FilterVersionRecord`. -/
abbrev VersionStore := List (Nat × FilterVersionRecord)

/-- Keyed read of the Version Store (`filterVersions[id]`). -/
def storeGet : VersionStore → Nat → Option FilterVersionRecord
  | [], _ => none
  | (k, v) :: rest, id => if k = id then some v else storeGet rest id

/-- Keyed write of the Version Store (`filterVersionStorage.set(id, record)`). -/
def storeSet : VersionStore → Nat → FilterVersionRecord → VersionStore
  | [], k, v => [(k, v)]
  | (k1, v1) :: rest, k, v =>
      if k1 = k then (k, v) :: rest else (k1, v1) :: storeSet rest k v

/-- `RECENTLY_CHECKED_FILTER_TIMEOUT_MS = 1000 * 60 * 5` (5 minutes). -/
def RECENTLY_CHECKED_FILTER_TIMEOUT_MS : Int := 1000 * 60 * 5

/-- Modelled from the spec: `DEFAULT_FILTERS_UPDATE_PERIOD` (the
`common/settings` constant is not under `src/`) is the sentinel update-period
value meaning use each list's own declared `expires` TTL. -/
def DEFAULT_FILTERS_UPDATE_PERIOD : Int := -1

/-- Modelled from the spec: `FiltersUpdateTime.Disabled` (the constants file is
not under `src/`) is the update-period setting value meaning auto update is
disabled. -/
def FiltersUpdateTimeDisabled : Int := 0

/-- The expiry test of `FilterUpdateApi.selectExpiredFilters` on one record:
with the sentinel period the list-declared `expires` (in seconds) is used,
otherwise the fixed `updatePeriod` (in milliseconds). -/
def isExpiredRecord (updatePeriod now : Int) (fv : FilterVersionRecord) : Bool :=
  if updatePeriod = DEFAULT_FILTERS_UPDATE_PERIOD then
    decide (fv.lastCheckTime + fv.expires * 1000 ≤ now)
  else
    decide (fv.lastCheckTime + updatePeriod ≤ now)

/-- The filter predicate of `FilterUpdateApi.selectExpiredFilters`:
a task with no `FilterVersionRecord` is always expired. -/
def expiredPred (fvs : VersionStore) (updatePeriod now : Int)
    (data : FilterUpdateDetail) : Bool :=
  match storeGet fvs data.filterId with
  | none => true
  | some fv => isExpiredRecord updatePeriod now fv

/-- `FilterUpdateApi.selectExpiredFilters`: keeps the expired tasks and
re-emits each of them with `force = true`. -/
def selectExpiredFilters (fvs : VersionStore)
    (filterUpdateDetails : List FilterUpdateDetail)
    (updatePeriod now : Int) : List FilterUpdateDetail :=
  (filterUpdateDetails.filter (expiredPred fvs updatePeriod now)).map
    (fun f => { f with force := true })

/-- JavaScript truthiness of the optional `diffPath` field
(`filterVersion?.diffPath`): present and a non-empty string. -/
def diffPathTruthy : Option String → Bool
  | none => false
  | some s => decide (s ≠ "")

/-- `FilterUpdateApi.selectFiltersWithDiffPath`: keeps the tasks whose record
has a truthy `diffPath` and re-emits each of them with `force = false`. -/
def selectFiltersWithDiffPath (fvs : VersionStore)
    (filterUpdateDetails : List FilterUpdateDetail) : List FilterUpdateDetail :=
  (filterUpdateDetails.filter (fun data =>
    match storeGet fvs data.filterId with
    | none => false
    | some fv => diffPathTruthy fv.diffPath)).map
    (fun f => { f with force := false })

/-- `FilterUpdateApi.selectFiltersIdsToUpdate`: keeps custom filters always and
other filters only when not recently checked (or when they have no record).
`isCustom` abstracts `CustomFilterApi.isCustomFilter`, `now` is `Date.now()`. -/
def selectFiltersIdsToUpdate (isCustom : Nat → Bool) (fvs : VersionStore)
    (now : Int) (filterIds : List Nat) : List Nat :=
  filterIds.filter (fun id =>
    isCustom id ||
      (match storeGet fvs id with
       | some fv =>
          decide (now - fv.lastCheckTime > RECENTLY_CHECKED_FILTER_TIMEOUT_MS)
       | none => true))

theorem expiredPred_eq_of_filterId_eq (fvs : VersionStore) (updatePeriod now : Int)
    {a d : FilterUpdateDetail} (h : a.filterId = d.filterId) :
    expiredPred fvs updatePeriod now a = expiredPred fvs updatePeriod now d := by
  simp [expiredPred, h]

theorem mk_force_true_inj {a d : FilterUpdateDetail}
    (h : ({ a with force := true } : FilterUpdateDetail)
        = { d with force := true }) : a.filterId = d.filterId := by
  cases a; cases d; simpa using congrArg FilterUpdateDetail.filterId h

/-- C1. For every filter id with a `FilterVersionRecord` processed by
`selectExpiredFilters`: with the sentinel update period the task is selected
iff `lastCheckTime + expires * 1000 ≤ now`, with any other update period iff
`lastCheckTime + updatePeriod ≤ now`; and every emitted task has
`force = true`. -/
theorem selectExpiredFilters_expiry (fvs : VersionStore)
    (filterUpdateDetails : List FilterUpdateDetail) (updatePeriod now : Int)
    (d : FilterUpdateDetail) (fv : FilterVersionRecord)
    (hd : d ∈ filterUpdateDetails)
    (hfv : storeGet fvs d.filterId = some fv) :
    (({ d with force := true } : FilterUpdateDetail)
        ∈ selectExpiredFilters fvs filterUpdateDetails updatePeriod now ↔
      ((updatePeriod = DEFAULT_FILTERS_UPDATE_PERIOD →
          fv.lastCheckTime + fv.expires * 1000 ≤ now) ∧
       (updatePeriod ≠ DEFAULT_FILTERS_UPDATE_PERIOD →
          fv.lastCheckTime + updatePeriod ≤ now)))
    ∧ ∀ e ∈ selectExpiredFilters fvs filterUpdateDetails updatePeriod now,
        e.force = true := by
  have hcond : expiredPred fvs updatePeriod now d = true ↔
      ((updatePeriod = DEFAULT_FILTERS_UPDATE_PERIOD →
          fv.lastCheckTime + fv.expires * 1000 ≤ now) ∧
       (updatePeriod ≠ DEFAULT_FILTERS_UPDATE_PERIOD →
          fv.lastCheckTime + updatePeriod ≤ now)) := by
    simp only [expiredPred, hfv, isExpiredRecord]
    by_cases hp : updatePeriod = DEFAULT_FILTERS_UPDATE_PERIOD <;> simp [hp]
  constructor
  · constructor
    · intro hmem
      rcases List.mem_map.mp hmem with ⟨a, hafil, haeq⟩
      rcases List.mem_filter.mp hafil with ⟨_, hapred⟩
      have hid : a.filterId = d.filterId := mk_force_true_inj haeq
      have : expiredPred fvs updatePeriod now d = true := by
        rw [← expiredPred_eq_of_filterId_eq fvs updatePeriod now hid]
        exact hapred
      exact hcond.mp this
    · intro hrhs
      have hpred : expiredPred fvs updatePeriod now d = true := hcond.mpr hrhs
      exact List.mem_map.mpr
        ⟨d, List.mem_filter.mpr ⟨hd, hpred⟩, rfl⟩
  · intro e he
    rcases List.mem_map.mp he with ⟨a, _, haeq⟩
    rw [← haeq]

/-- Concrete instance of `selectExpiredFilters_expiry`: one task whose record
has `expires = 3600` seconds and was last checked 3700 seconds before `now`,
checked under the sentinel period. -/
theorem selectExpiredFilters_expiry_witness :
    ({ filterId := 1, force := true } : FilterUpdateDetail)
      ∈ selectExpiredFilters
          [(1, { version := "2", expires := 3600, lastUpdateTime := 0,
                 lastCheckTime := 6300000, diffPath := none })]
          [{ filterId := 1, force := false }] (-1) 10000000 :=
  ((selectExpiredFilters_expiry
      [(1, { version := "2", expires := 3600, lastUpdateTime := 0,
             lastCheckTime := 6300000, diffPath := none })]
      [{ filterId := 1, force := false }] (-1) 10000000
      { filterId := 1, force := false }
      { version := "2", expires := 3600, lastUpdateTime := 0,
        lastCheckTime := 6300000, diffPath := none }
      (by decide) (by decide)).1).mpr (by decide)

/-- C4. Recency selection of `selectFiltersIdsToUpdate`: a custom filter in
the input is always kept; a filter with a record is kept iff it is custom or
its last check is older than the 5-minute window. -/
theorem selectFiltersIdsToUpdate_recency (isCustom : Nat → Bool)
    (fvs : VersionStore) (now : Int) (filterIds : List Nat) (id : Nat)
    (hmem : id ∈ filterIds) :
    (isCustom id = true →
      id ∈ selectFiltersIdsToUpdate isCustom fvs now filterIds)
    ∧ ∀ fv : FilterVersionRecord, storeGet fvs id = some fv →
        (id ∈ selectFiltersIdsToUpdate isCustom fvs now filterIds ↔
          (isCustom id = true ∨
            now - fv.lastCheckTime > RECENTLY_CHECKED_FILTER_TIMEOUT_MS)) := by
  constructor
  · intro hc
    refine List.mem_filter.mpr ⟨hmem, ?_⟩
    simp [hc]
  · intro fv hfv
    constructor
    · intro hsel
      have hp := (List.mem_filter.mp hsel).2
      simp only [hfv, Bool.or_eq_true, decide_eq_true_eq] at hp
      exact hp
    · intro hor
      refine List.mem_filter.mpr ⟨hmem, ?_⟩
      simp only [hfv, Bool.or_eq_true, decide_eq_true_eq]
      exact hor

/-- Concrete instances of `selectFiltersIdsToUpdate_recency`: a custom filter
checked just now is kept; a built-in filter checked 4 minutes ago is not kept;
one checked 6 minutes ago is kept. -/
theorem selectFiltersIdsToUpdate_recency_witness :
    (1 ∈ selectFiltersIdsToUpdate (fun id => id == 1)
        [(1, { version := "1", expires := 3600, lastUpdateTime := 0,
               lastCheckTime := 1000000, diffPath := none })] 1000000 [1])
    ∧ (2 ∉ selectFiltersIdsToUpdate (fun _ => false)
        [(2, { version := "1", expires := 3600, lastUpdateTime := 0,
               lastCheckTime := 760000, diffPath := none })] 1000000 [2])
    ∧ (3 ∈ selectFiltersIdsToUpdate (fun _ => false)
        [(3, { version := "1", expires := 3600, lastUpdateTime := 0,
               lastCheckTime := 640000, diffPath := none })] 1000000 [3]) := by
  refine ⟨?_, ?_, ?_⟩
  · exact (selectFiltersIdsToUpdate_recency (fun id => id == 1)
      [(1, { version := "1", expires := 3600, lastUpdateTime := 0,
             lastCheckTime := 1000000, diffPath := none })] 1000000 [1] 1
      (by decide)).1 (by decide)
  · intro h
    have := ((selectFiltersIdsToUpdate_recency (fun _ => false)
      [(2, { version := "1", expires := 3600, lastUpdateTime := 0,
             lastCheckTime := 760000, diffPath := none })] 1000000 [2] 2
      (by decide)).2
      { version := "1", expires := 3600, lastUpdateTime := 0,
        lastCheckTime := 760000, diffPath := none } (by decide)).mp h
    revert this
    decide
  · exact ((selectFiltersIdsToUpdate_recency (fun _ => false)
      [(3, { version := "1", expires := 3600, lastUpdateTime := 0,
             lastCheckTime := 640000, diffPath := none })] 1000000 [3] 3
      (by decide)).2
      { version := "1", expires := 3600, lastUpdateTime := 0,
        lastCheckTime := 640000, diffPath := none } (by decide)).mpr
      (by decide)

/-- Modelled from the spec: the outcome of one per-filter update task.
`CustomFilterApi.updateFilter` and `CommonFilterApi.updateFilter` (the Patch
Executor) are not under `src/`; per the spec a task commits the new content and
`FilterVersionRecord` only on success, returns `null` metadata when nothing
changed, and on failure makes no partial commit. -/
inductive TaskResult where
  | success (metadata : FilterMetadata) (record : FilterVersionRecord)
  | noUpdate
  | failure (err : String)
deriving DecidableEq, Repr

/-- The metadata a task contributes to the aggregated cycle result. -/
def taskMetadata : TaskResult → Option FilterMetadata
  | .success m _ => some m
  | .noUpdate => none
  | .failure _ => none

/-- Whether a task outcome committed anything to the Version Store. -/
def TaskResult.isSuccess : TaskResult → Bool
  | .success _ _ => true
  | .noUpdate => false
  | .failure _ => false

/-- One step of the task loop in `FilterUpdateApi.updateFilters`: a successful
task pushes its metadata and commits its record; a `null`-metadata or rejected
task contributes nothing and commits nothing. -/
def runUpdateTask (exec : Nat → Bool → TaskResult)
    (acc : List FilterMetadata × VersionStore) (d : FilterUpdateDetail) :
    List FilterMetadata × VersionStore :=
  match exec d.filterId d.force with
  | .success m rec => (acc.1 ++ [m], storeSet acc.2 d.filterId rec)
  | .noUpdate => acc
  | .failure _ => acc

/-- Result of one `FilterUpdateApi.updateFilters` cycle: the aggregated
metadata of the successful tasks, the Version Store after the cycle, and
whether the global metadata catalog was reloaded. -/
structure UpdateFiltersResult where
  updatedFiltersMetadata : List FilterMetadata
  store : VersionStore
  metadataReloaded : Bool
deriving DecidableEq, Repr

/-- `FilterUpdateApi.updateFilters`: reloads the metadata catalog when some
forced task targets a common (built-in) filter, then settles every task
(`Promise.allSettled`, modelled as the in-order all-settled join), collecting
the successes and logging the failures without aborting the cycle. `exec`
abstracts the per-filter executor dispatch, `isCommon` abstracts
`CommonFilterApi.isCommonFilter`. -/
def updateFilters (isCommon : Nat → Bool) (exec : Nat → Bool → TaskResult)
    (filterUpdateDetails : List FilterUpdateDetail) (st : VersionStore) :
    UpdateFiltersResult :=
  let shouldLoadMetadata := filterUpdateDetails.any
    (fun d => d.force && isCommon d.filterId)
  let r := filterUpdateDetails.foldl (runUpdateTask exec) ([], st)
  ⟨r.1, r.2, shouldLoadMetadata⟩

theorem storeGet_storeSet_ne (st : VersionStore) (k : Nat)
    (v : FilterVersionRecord) (k' : Nat) (h : k ≠ k') :
    storeGet (storeSet st k v) k' = storeGet st k' := by
  induction st with
  | nil => simp [storeSet, storeGet, h]
  | cons p rest ih =>
      obtain ⟨k1, v1⟩ := p
      by_cases h1 : k1 = k
      · subst h1
        simp [storeSet, storeGet, h]
      · simp [storeSet, storeGet, h1, ih]

theorem foldl_runUpdateTask_fst (exec : Nat → Bool → TaskResult)
    (l : List FilterUpdateDetail) :
    ∀ acc : List FilterMetadata × VersionStore,
      (l.foldl (runUpdateTask exec) acc).1 =
        acc.1 ++ l.filterMap (fun d => taskMetadata (exec d.filterId d.force)) := by
  induction l with
  | nil => intro acc; simp
  | cons d rest ih =>
      intro acc
      rw [List.foldl_cons, ih]
      cases hres : exec d.filterId d.force <;>
        simp [runUpdateTask, taskMetadata, hres]

theorem foldl_runUpdateTask_snd (exec : Nat → Bool → TaskResult)
    (l : List FilterUpdateDetail) (k : Nat)
    (hk : ∀ d ∈ l, d.filterId = k → (exec d.filterId d.force).isSuccess = false) :
    ∀ acc : List FilterMetadata × VersionStore,
      storeGet (l.foldl (runUpdateTask exec) acc).2 k = storeGet acc.2 k := by
  induction l with
  | nil => intro acc; simp
  | cons d rest ih =>
      intro acc
      rw [List.foldl_cons]
      have hrest : ∀ e ∈ rest, e.filterId = k →
          (exec e.filterId e.force).isSuccess = false := by
        intro e he hek
        exact hk e (List.mem_cons_of_mem d he) hek
      rw [ih hrest]
      cases hres : exec d.filterId d.force with
      | success m rec =>
          have hne : d.filterId ≠ k := by
            intro hkk
            have := hk d (List.mem_cons_self d rest) hkk
            rw [hres] at this
            simp [TaskResult.isSuccess] at this
          simp [runUpdateTask, hres, storeGet_storeSet_ne _ _ _ _ hne]
      | noUpdate => simp [runUpdateTask, hres]
      | failure err => simp [runUpdateTask, hres]

/-- C2. Partial-failure isolation of `updateFilters`: the returned list is
exactly the metadata of the tasks that succeeded, in task order, regardless of
failed siblings; and the Version Store record of any filter id none of whose
tasks succeeded (for instance a filter whose patch application failed) is left
unmodified by the cycle. -/
theorem updateFilters_isolation (isCommon : Nat → Bool)
    (exec : Nat → Bool → TaskResult)
    (filterUpdateDetails : List FilterUpdateDetail) (st : VersionStore) :
    ((updateFilters isCommon exec filterUpdateDetails st).updatedFiltersMetadata
      = filterUpdateDetails.filterMap
          (fun d => taskMetadata (exec d.filterId d.force)))
    ∧ ∀ k : Nat,
        (∀ d ∈ filterUpdateDetails, d.filterId = k →
          (exec d.filterId d.force).isSuccess = false) →
        storeGet (updateFilters isCommon exec filterUpdateDetails st).store k
          = storeGet st k := by
  constructor
  · simpa [updateFilters] using
      foldl_runUpdateTask_fst exec filterUpdateDetails ([], st)
  · intro k hk
    simpa [updateFilters] using
      foldl_runUpdateTask_snd exec filterUpdateDetails k hk ([], st)

/-- Concrete instance of `updateFilters_isolation`: 3 tasks where task 2 fails
its patch application; the cycle returns exactly the metadata of tasks 1 and 3
and leaves filter 2's Version Store record unmodified. -/
theorem updateFilters_isolation_witness :
    ((updateFilters (fun _ => true)
        (fun id _ => if id = 2 then .failure "patch application failed"
          else .success { filterId := id, version := "9" }
            { version := "9", expires := 3600, lastUpdateTime := 5,
              lastCheckTime := 5, diffPath := none })
        [{ filterId := 1, force := false }, { filterId := 2, force := false },
         { filterId := 3, force := false }]
        [(2, { version := "1", expires := 3600, lastUpdateTime := 0,
               lastCheckTime := 0, diffPath := none })]).updatedFiltersMetadata
      = [{ filterId := 1, version := "9" }, { filterId := 3, version := "9" }])
    ∧ storeGet (updateFilters (fun _ => true)
        (fun id _ => if id = 2 then .failure "patch application failed"
          else .success { filterId := id, version := "9" }
            { version := "9", expires := 3600, lastUpdateTime := 5,
              lastCheckTime := 5, diffPath := none })
        [{ filterId := 1, force := false }, { filterId := 2, force := false },
         { filterId := 3, force := false }]
        [(2, { version := "1", expires := 3600, lastUpdateTime := 0,
               lastCheckTime := 0, diffPath := none })]).store 2
      = some { version := "1", expires := 3600, lastUpdateTime := 0,
               lastCheckTime := 0, diffPath := none } := by
  have h := updateFilters_isolation (fun _ => true)
    (fun id _ => if id = 2 then .failure "patch application failed"
      else .success { filterId := id, version := "9" }
        { version := "9", expires := 3600, lastUpdateTime := 5,
          lastCheckTime := 5, diffPath := none })
    [{ filterId := 1, force := false }, { filterId := 2, force := false },
     { filterId := 3, force := false }]
    [(2, { version := "1", expires := 3600, lastUpdateTime := 0,
           lastCheckTime := 0, diffPath := none })]
  refine ⟨by rw [h.1]; decide, ?_⟩
  rw [h.2 2 (by decide)]
  decide

/-- The `uniqueFiltersMap` of `autoUpdateFilters`: a JavaScript `Map` in
insertion order, modelled as an association list with unique keys. -/
abbrev MapList := List (Nat × FilterUpdateDetail)

/-- `uniqueFiltersMap.has(k)`. -/
def jsMapHas (m : MapList) (k : Nat) : Bool := m.any (fun p => p.1 == k)

/-- `uniqueFiltersMap.get(k)`. -/
def jsMapLookup : MapList → Nat → Option FilterUpdateDetail
  | [], _ => none
  | (k1, v) :: rest, k => if k1 = k then some v else jsMapLookup rest k

/-- `uniqueFiltersMap.set(k, v)`: replaces the value in place when the key is
present, appends otherwise (JavaScript `Map` keeps insertion order). -/
def jsMapSet (m : MapList) (k : Nat) (v : FilterUpdateDetail) : MapList :=
  if jsMapHas m k then m.map (fun p => if p.1 = k then (k, v) else p)
  else m ++ [(k, v)]

/-- The loop body of the merge in `autoUpdateFilters`:
`if (!uniqueFiltersMap.has(filter.filterId) || filter.force) set(...)`. -/
def mergeStep (m : MapList) (f : FilterUpdateDetail) : MapList :=
  if !(jsMapHas m f.filterId) || f.force then jsMapSet m f.filterId f else m

/-- The merge of the diff-path and expired task lists in `autoUpdateFilters`:
fold the combined list through the map and take `Array.from(map.values())`. -/
def mergeUnique (combinedFilters : List FilterUpdateDetail) :
    List FilterUpdateDetail :=
  (combinedFilters.foldl mergeStep []).map (fun p => p.2)

/-- The task-list construction of `FilterUpdateApi.autoUpdateFilters` after its
short-circuit guards: all installed and enabled filters on a forced check,
otherwise the merge of the diff-path tasks and the expired tasks. -/
def autoUpdateTasks (fvs : VersionStore)
    (installedAndEnabledFilters : List Nat) (updatePeriod now : Int)
    (forceUpdate : Bool) : List FilterUpdateDetail :=
  let base := installedAndEnabledFilters.map
    (fun id => ({ filterId := id, force := forceUpdate } : FilterUpdateDetail))
  if forceUpdate then base
  else
    mergeUnique (selectFiltersWithDiffPath fvs base
      ++ selectExpiredFilters fvs base updatePeriod now)

theorem not_mem_keys_of_has_false {m : MapList} {k : Nat}
    (h : jsMapHas m k = false) : k ∉ m.map Prod.fst := by
  intro hk
  rcases List.mem_map.mp hk with ⟨p, hp, hpk⟩
  have : jsMapHas m k = true := by
    simp only [jsMapHas, List.any_eq_true]
    exact ⟨p, hp, by simp [hpk]⟩
  rw [h] at this
  exact Bool.false_ne_true this

theorem replaceEntry_eq (k : Nat) (v : FilterUpdateDetail)
    (p : Nat × FilterUpdateDetail) (h : p.1 = k) :
    (if p.1 = k then (k, v) else p) = (k, v) := if_pos h

theorem replaceEntry_ne (k : Nat) (v : FilterUpdateDetail)
    (p : Nat × FilterUpdateDetail) (h : ¬p.1 = k) :
    (if p.1 = k then (k, v) else p) = p := if_neg h

theorem jsMapLookup_map_replace (m : MapList) (k : Nat)
    (v : FilterUpdateDetail) :
    jsMapLookup (m.map (fun p => if p.1 = k then (k, v) else p)) k
      = (jsMapLookup m k).map (fun _ => v) := by
  induction m with
  | nil => rfl
  | cons p rest ih =>
      obtain ⟨k1, v1⟩ := p
      by_cases h1 : k1 = k
      · subst h1
        rw [List.map_cons, replaceEntry_eq k1 v (k1, v1) rfl]
        simp [jsMapLookup]
      · rw [List.map_cons, replaceEntry_ne k v (k1, v1) h1]
        simp [jsMapLookup, h1, ih]

theorem jsMapLookup_map_replace_ne (m : MapList) (k : Nat)
    (v : FilterUpdateDetail) (k' : Nat) (h : k' ≠ k) :
    jsMapLookup (m.map (fun p => if p.1 = k then (k, v) else p)) k'
      = jsMapLookup m k' := by
  have hkk : ¬ k = k' := fun hh => h hh.symm
  induction m with
  | nil => rfl
  | cons p rest ih =>
      obtain ⟨k1, v1⟩ := p
      by_cases h1 : k1 = k
      · have hk1 : ¬ k1 = k' := by rw [h1]; exact hkk
        rw [List.map_cons, replaceEntry_eq k v (k1, v1) h1]
        simp [jsMapLookup, hkk, hk1, ih]
      · rw [List.map_cons, replaceEntry_ne k v (k1, v1) h1]
        by_cases h2 : k1 = k'
        · simp [jsMapLookup, h2]
        · simp [jsMapLookup, h2, ih]

theorem jsMapLookup_append_single (m : MapList) (k : Nat)
    (v : FilterUpdateDetail) (h : jsMapHas m k = false) :
    jsMapLookup (m ++ [(k, v)]) k = some v := by
  induction m with
  | nil => simp [jsMapLookup]
  | cons p rest ih =>
      obtain ⟨k1, v1⟩ := p
      have h1 : (k1 == k) = false ∧ jsMapHas rest k = false := by
        simpa [jsMapHas] using h
      have hne : k1 ≠ k := by simpa using h1.1
      simpa [jsMapLookup, hne] using ih h1.2

theorem jsMapLookup_append_single_ne (m : MapList) (k : Nat)
    (v : FilterUpdateDetail) (k' : Nat) (h : k' ≠ k) :
    jsMapLookup (m ++ [(k, v)]) k' = jsMapLookup m k' := by
  have hkk : ¬ k = k' := fun hh => h hh.symm
  induction m with
  | nil => simp [jsMapLookup, hkk]
  | cons p rest ih =>
      obtain ⟨k1, v1⟩ := p
      by_cases h1 : k1 = k'
      · simp [jsMapLookup, h1]
      · simp [jsMapLookup, h1, ih]

theorem jsMapLookup_isSome_of_has {m : MapList} {k : Nat}
    (h : jsMapHas m k = true) : (jsMapLookup m k).isSome = true := by
  induction m with
  | nil => simp [jsMapHas] at h
  | cons p rest ih =>
      obtain ⟨k1, v1⟩ := p
      by_cases h1 : k1 = k
      · simp [jsMapLookup, h1]
      · have : jsMapHas rest k = true := by
          have := h
          simp only [jsMapHas, List.any_cons, Bool.or_eq_true] at this
          rcases this with hh | hh
          · exact absurd (by simpa using hh) h1
          · simpa [jsMapHas] using hh
        simp [jsMapLookup, h1, ih this]

theorem jsMapLookup_jsMapSet_self (m : MapList) (k : Nat)
    (v : FilterUpdateDetail) : jsMapLookup (jsMapSet m k v) k = some v := by
  by_cases h : jsMapHas m k = true
  · rw [jsMapSet, if_pos h, jsMapLookup_map_replace]
    have := jsMapLookup_isSome_of_has h
    cases hl : jsMapLookup m k with
    | none => rw [hl] at this; simp at this
    | some w => simp
  · rw [jsMapSet, if_neg h]
    exact jsMapLookup_append_single m k v (by simpa using h)

theorem jsMapLookup_jsMapSet_ne (m : MapList) (k : Nat)
    (v : FilterUpdateDetail) (k' : Nat) (h : k' ≠ k) :
    jsMapLookup (jsMapSet m k v) k' = jsMapLookup m k' := by
  by_cases hh : jsMapHas m k = true
  · rw [jsMapSet, if_pos hh]
    exact jsMapLookup_map_replace_ne m k v k' h
  · rw [jsMapSet, if_neg hh]
    exact jsMapLookup_append_single_ne m k v k' h

theorem mergeStep_lookup_force (m : MapList) (f : FilterUpdateDetail)
    (hf : f.force = true) :
    jsMapLookup (mergeStep m f) f.filterId = some f := by
  rw [mergeStep, if_pos (by simp [hf])]
  exact jsMapLookup_jsMapSet_self m f.filterId f

theorem mergeStep_lookup_ne (m : MapList) (f : FilterUpdateDetail) (k : Nat)
    (h : k ≠ f.filterId) :
    jsMapLookup (mergeStep m f) k = jsMapLookup m k := by
  rw [mergeStep]
  by_cases hc : (!(jsMapHas m f.filterId) || f.force) = true
  · rw [if_pos hc]
    exact jsMapLookup_jsMapSet_ne m f.filterId f k h
  · rw [if_neg hc]

theorem foldl_mergeStep_lookup (k : Nat) (l : List FilterUpdateDetail)
    (hall : ∀ d ∈ l, d.filterId = k →
      d = ({ filterId := k, force := true } : FilterUpdateDetail)) :
    ∀ m : MapList,
      jsMapLookup (l.foldl mergeStep m) k =
        if l.any (fun d => d.filterId == k)
        then some ({ filterId := k, force := true } : FilterUpdateDetail)
        else jsMapLookup m k := by
  induction l with
  | nil => intro m; simp
  | cons e rest ih =>
      intro m
      have hrest : ∀ d ∈ rest, d.filterId = k →
          d = ({ filterId := k, force := true } : FilterUpdateDetail) :=
        fun d hd => hall d (List.mem_cons_of_mem e hd)
      rw [List.foldl_cons, ih hrest]
      by_cases he : e.filterId = k
      · have heq := hall e (List.mem_cons_self e rest) he
        subst heq
        by_cases hr : rest.any (fun d => d.filterId == k) = true
        · simp [hr]
        · have : jsMapLookup (mergeStep m { filterId := k, force := true }) k
              = some ({ filterId := k, force := true } : FilterUpdateDetail) :=
            mergeStep_lookup_force m { filterId := k, force := true } rfl
          simp only [Bool.not_eq_true] at hr
          simp [hr, this]
      · have hany : ((e :: rest).any (fun d => d.filterId == k))
            = rest.any (fun d => d.filterId == k) := by
          simp [List.any_cons, he]
        rw [hany]
        by_cases hr : rest.any (fun d => d.filterId == k) = true
        · simp [hr]
        · simp only [Bool.not_eq_true] at hr
          simp [hr, mergeStep_lookup_ne m e k (Ne.symm he)]

/-- Invariant of `uniqueFiltersMap`: every stored task carries the filter id it
is keyed under. -/
def mapEntriesConsistent (m : MapList) : Prop := ∀ p ∈ m, p.2.filterId = p.1

/-- Invariant of `uniqueFiltersMap`: keys are pairwise distinct. -/
def mapKeysNodup (m : MapList) : Prop := (m.map Prod.fst).Nodup

theorem map_fst_replace (m : MapList) (k : Nat) (v : FilterUpdateDetail) :
    (m.map (fun p => if p.1 = k then (k, v) else p)).map Prod.fst
      = m.map Prod.fst := by
  induction m with
  | nil => rfl
  | cons p rest ih =>
      by_cases hp : p.1 = k
      · simp [hp, ih]
      · simp [hp, ih]

theorem jsMapSet_consistent {m : MapList} {k : Nat} {v : FilterUpdateDetail}
    (hm : mapEntriesConsistent m) (hv : v.filterId = k) :
    mapEntriesConsistent (jsMapSet m k v) := by
  intro p hp
  rw [jsMapSet] at hp
  by_cases hh : jsMapHas m k = true
  · rw [if_pos hh] at hp
    rcases List.mem_map.mp hp with ⟨q, hq, hqe⟩
    by_cases hq1 : q.1 = k
    · rw [if_pos hq1] at hqe
      rw [← hqe]
      exact hv
    · rw [if_neg hq1] at hqe
      rw [← hqe]
      exact hm q hq
  · rw [if_neg hh] at hp
    rcases List.mem_append.mp hp with hp1 | hp1
    · exact hm p hp1
    · have : p = (k, v) := by simpa using hp1
      rw [this]
      exact hv

theorem jsMapSet_keysNodup {m : MapList} {k : Nat} {v : FilterUpdateDetail}
    (hm : mapKeysNodup m) : mapKeysNodup (jsMapSet m k v) := by
  rw [mapKeysNodup, jsMapSet]
  by_cases hh : jsMapHas m k = true
  · rw [if_pos hh, map_fst_replace]
    exact hm
  · rw [if_neg hh]
    have hk : k ∉ m.map Prod.fst :=
      not_mem_keys_of_has_false (by simpa using hh)
    simp only [List.map_append, List.map_cons, List.map_nil]
    rw [List.nodup_append]
    refine ⟨hm, List.nodup_singleton k, ?_⟩
    intro a ha hb
    have hak : a = k := by simpa using hb
    subst hak
    exact hk ha

theorem mergeStep_consistent {m : MapList} {f : FilterUpdateDetail}
    (hm : mapEntriesConsistent m) : mapEntriesConsistent (mergeStep m f) := by
  rw [mergeStep]
  by_cases hc : (!(jsMapHas m f.filterId) || f.force) = true
  · rw [if_pos hc]
    exact jsMapSet_consistent hm rfl
  · rw [if_neg hc]
    exact hm

theorem mergeStep_keysNodup {m : MapList} {f : FilterUpdateDetail}
    (hm : mapKeysNodup m) : mapKeysNodup (mergeStep m f) := by
  rw [mergeStep]
  by_cases hc : (!(jsMapHas m f.filterId) || f.force) = true
  · rw [if_pos hc]
    exact jsMapSet_keysNodup hm
  · rw [if_neg hc]
    exact hm

theorem foldl_mergeStep_invariants (l : List FilterUpdateDetail) :
    ∀ m : MapList, mapEntriesConsistent m → mapKeysNodup m →
      mapEntriesConsistent (l.foldl mergeStep m)
        ∧ mapKeysNodup (l.foldl mergeStep m) := by
  induction l with
  | nil => intro m hc hn; exact ⟨hc, hn⟩
  | cons e rest ih =>
      intro m hc hn
      rw [List.foldl_cons]
      exact ih (mergeStep m e) (mergeStep_consistent hc) (mergeStep_keysNodup hn)

theorem values_filter_eq_of_lookup (m : MapList) (k : Nat)
    (v : FilterUpdateDetail) (hcons : mapEntriesConsistent m)
    (hnd : mapKeysNodup m) (hl : jsMapLookup m k = some v) :
    (m.map Prod.snd).filter (fun d => d.filterId == k) = [v] := by
  induction m with
  | nil => simp [jsMapLookup] at hl
  | cons p rest ih =>
      obtain ⟨k1, v1⟩ := p
      have hv1 : v1.filterId = k1 := hcons (k1, v1) (List.mem_cons_self _ _)
      have hk1 : k1 ∉ rest.map Prod.fst := by
        have := hnd
        rw [mapKeysNodup, List.map_cons, List.nodup_cons] at this
        exact this.1
      have hndrest : mapKeysNodup rest := by
        have := hnd
        rw [mapKeysNodup, List.map_cons, List.nodup_cons] at this
        exact this.2
      have hconsrest : mapEntriesConsistent rest :=
        fun q hq => hcons q (List.mem_cons_of_mem _ hq)
      by_cases h1 : k1 = k
      · have hveq : v1 = v := by
          rw [jsMapLookup, if_pos h1] at hl
          exact Option.some.inj hl
        subst hveq
        have hrest0 : (rest.map Prod.snd).filter (fun d => d.filterId == k)
            = [] := by
          rw [List.filter_eq_nil_iff]
          intro d hd
          rcases List.mem_map.mp hd with ⟨q, hq, hqe⟩
          have : d.filterId = q.1 := by rw [← hqe]; exact hconsrest q hq
          have hq1 : q.1 ≠ k := by
            intro hqk
            apply hk1
            rw [h1, ← hqk]
            exact List.mem_map.mpr ⟨q, hq, rfl⟩
          simp [this, hq1]
        simp [List.filter_cons, hv1, h1, hrest0]
      · rw [jsMapLookup, if_neg h1] at hl
        have htail := ih hconsrest hndrest hl
        have hhead : (v1.filterId == k) = false := by
          simp [hv1, h1]
        simp [List.filter_cons, hhead, htail]

theorem mem_selectExpired_of_expired {fvs : VersionStore}
    {base : List FilterUpdateDetail} {updatePeriod now : Int}
    {d : FilterUpdateDetail} (hd : d ∈ base)
    (hp : expiredPred fvs updatePeriod now d = true) :
    ({ d with force := true } : FilterUpdateDetail)
      ∈ selectExpiredFilters fvs base updatePeriod now :=
  List.mem_map.mpr ⟨d, List.mem_filter.mpr ⟨hd, hp⟩, rfl⟩

theorem selectExpired_entries_shape (fvs : VersionStore)
    (base : List FilterUpdateDetail) (updatePeriod now : Int) (k : Nat) :
    ∀ d ∈ selectExpiredFilters fvs base updatePeriod now, d.filterId = k →
      d = ({ filterId := k, force := true } : FilterUpdateDetail) := by
  intro d hd hdk
  rcases List.mem_map.mp hd with ⟨a, _, hae⟩
  have hforce : d.force = true := by rw [← hae]
  cases d
  simp_all

/-- C3. Force overrides patch-path in a non-forced `autoUpdateFilters` cycle:
when a filter qualifies both for the patch path (truthy `diffPath`) and for
expiry, the merged task list contains exactly one task for that filter id and
its `force` flag is `true`. -/
theorem autoUpdateTasks_forceWins (fvs : VersionStore)
    (installedAndEnabledFilters : List Nat) (updatePeriod now : Int)
    (id : Nat) (fv : FilterVersionRecord)
    (hmem : id ∈ installedAndEnabledFilters)
    (hfv : storeGet fvs id = some fv)
    (hdiff : diffPathTruthy fv.diffPath = true)
    (hexp : isExpiredRecord updatePeriod now fv = true) :
    (autoUpdateTasks fvs installedAndEnabledFilters updatePeriod now
        false).filter (fun d => d.filterId == id)
      = [({ filterId := id, force := true } : FilterUpdateDetail)] := by
  have hbase : ({ filterId := id, force := false } : FilterUpdateDetail)
      ∈ installedAndEnabledFilters.map
        (fun i => ({ filterId := i, force := false } : FilterUpdateDetail)) :=
    List.mem_map.mpr ⟨id, hmem, rfl⟩
  set base := installedAndEnabledFilters.map
    (fun i => ({ filterId := i, force := false } : FilterUpdateDetail)) with hbdef
  set expired := selectExpiredFilters fvs base updatePeriod now with hedef
  set withDiff := selectFiltersWithDiffPath fvs base with hddef
  have hpred : expiredPred fvs updatePeriod now
      ({ filterId := id, force := false } : FilterUpdateDetail) = true := by
    simp [expiredPred, hfv, hexp]
  have hexpmem : ({ filterId := id, force := true } : FilterUpdateDetail)
      ∈ expired :=
    mem_selectExpired_of_expired hbase hpred
  have hany : expired.any (fun d => d.filterId == id) = true := by
    simp only [List.any_eq_true]
    exact ⟨{ filterId := id, force := true }, hexpmem, by simp⟩
  have hshape : ∀ d ∈ expired, d.filterId = id →
      d = ({ filterId := id, force := true } : FilterUpdateDetail) :=
    selectExpired_entries_shape fvs base updatePeriod now id
  have hsplit : (withDiff ++ expired).foldl mergeStep ([] : MapList)
      = expired.foldl mergeStep (withDiff.foldl mergeStep ([] : MapList)) :=
    List.foldl_append _ _ _ _
  have hlook : jsMapLookup ((withDiff ++ expired).foldl mergeStep
      ([] : MapList)) id
      = some ({ filterId := id, force := true } : FilterUpdateDetail) := by
    rw [hsplit, foldl_mergeStep_lookup id expired hshape, if_pos hany]
  have hinv := foldl_mergeStep_invariants (withDiff ++ expired) []
    (fun p hp => absurd hp (List.not_mem_nil p)) List.nodup_nil
  have hfin := values_filter_eq_of_lookup
    ((withDiff ++ expired).foldl mergeStep []) id
    ({ filterId := id, force := true } : FilterUpdateDetail)
    hinv.1 hinv.2 hlook
  simpa [autoUpdateTasks, mergeUnique, ← hbdef, ← hedef, ← hddef] using hfin

/-- Concrete instance of `autoUpdateTasks_forceWins`: one installed filter with
a truthy `diffPath` whose record is also expired under the sentinel period. -/
theorem autoUpdateTasks_forceWins_witness :
    (autoUpdateTasks
        [(7, { version := "1", expires := 3600, lastUpdateTime := 0,
               lastCheckTime := 0, diffPath := some "patches/7.patch" })]
        [7] (-1) 5000000 false).filter (fun d => d.filterId == 7)
      = [({ filterId := 7, force := true } : FilterUpdateDetail)] :=
  autoUpdateTasks_forceWins
    [(7, { version := "1", expires := 3600, lastUpdateTime := 0,
           lastCheckTime := 0, diffPath := some "patches/7.patch" })]
    [7] (-1) 5000000 7
    { version := "1", expires := 3600, lastUpdateTime := 0,
      lastCheckTime := 0, diffPath := some "patches/7.patch" }
    (by decide) (by decide) (by decide) (by decide)

/-- Modelled from the spec: `filterVersionStorage.refreshLastCheckTime(ids)`
(the Version Store implementation is not under `src/`) marks
`lastCheckTime = now` for each listed filter that has a record. -/
def refreshLastCheckTime (st : VersionStore) (ids : List Nat) (now : Int) :
    VersionStore :=
  st.map (fun p =>
    if p.1 ∈ ids then (p.1, { p.2 with lastCheckTime := now }) else p)

/-- Result of one `FilterUpdateApi.autoUpdateFilters` cycle: the updated
filters' metadata, the Version Store afterwards, and whether
`Engine.debounceUpdate` was signalled. -/
structure AutoUpdateResult where
  updatedFilters : List FilterMetadata
  store : VersionStore
  engineUpdateSignalled : Bool
deriving DecidableEq, Repr

/-- `FilterUpdateApi.autoUpdateFilters`: short-circuits to an empty cycle when
filtering is disabled or the update period is the disabled setting (unless
forced), otherwise builds the task list, runs `updateFilters`, refreshes
`lastCheckTime` of every task's filter and signals the engine when something
was updated. -/
def autoUpdateFilters (isCommon : Nat → Bool) (exec : Nat → Bool → TaskResult)
    (filteringDisabled : Bool) (updatePeriod : Int) (fvs : VersionStore)
    (installedAndEnabledFilters : List Nat) (now : Int)
    (forceUpdate : Bool) : AutoUpdateResult :=
  if filteringDisabled && !forceUpdate then ⟨[], fvs, false⟩
  else if decide (updatePeriod = FiltersUpdateTimeDisabled) && !forceUpdate then
    ⟨[], fvs, false⟩
  else
    let tasks := autoUpdateTasks fvs installedAndEnabledFilters updatePeriod
      now forceUpdate
    let r := updateFilters isCommon exec tasks fvs
    ⟨r.updatedFiltersMetadata,
     refreshLastCheckTime r.store (tasks.map (fun d => d.filterId)) now,
     decide (0 < r.updatedFiltersMetadata.length)⟩

/-- `FilterUpdateApi.checkForFiltersUpdates`: recency-selects the candidates,
updates them all with `force = true`, then refreshes `lastCheckTime` of the
selected filters only. -/
def checkForFiltersUpdates (isCustom isCommon : Nat → Bool)
    (exec : Nat → Bool → TaskResult) (fvs : VersionStore) (now : Int)
    (filterIds : List Nat) : List FilterMetadata × VersionStore :=
  let filtersToCheck := selectFiltersIdsToUpdate isCustom fvs now filterIds
  let r := updateFilters isCommon exec
    (filtersToCheck.map
      (fun id => ({ filterId := id, force := true } : FilterUpdateDetail))) fvs
  (r.updatedFiltersMetadata, refreshLastCheckTime r.store filtersToCheck now)

/-- C8. `autoUpdateFilters` short-circuits to an empty cycle (no tasks, store
untouched, no engine signal) when filtering is disabled or the update period is
the disabled setting and the check is not forced; with `forceUpdate` it
proceeds with a full forced cycle over all installed and enabled filters,
regardless of those settings. -/
theorem autoUpdateFilters_shortCircuit (isCommon : Nat → Bool)
    (exec : Nat → Bool → TaskResult) (filteringDisabled : Bool)
    (updatePeriod : Int) (fvs : VersionStore)
    (installedAndEnabledFilters : List Nat) (now : Int) :
    ((filteringDisabled = true ∨ updatePeriod = FiltersUpdateTimeDisabled) →
      autoUpdateFilters isCommon exec filteringDisabled updatePeriod fvs
          installedAndEnabledFilters now false
        = ⟨[], fvs, false⟩)
    ∧ autoUpdateFilters isCommon exec filteringDisabled updatePeriod fvs
          installedAndEnabledFilters now true
        = (let r := updateFilters isCommon exec
              (installedAndEnabledFilters.map
                (fun id => ({ filterId := id, force := true } :
                  FilterUpdateDetail))) fvs
           ⟨r.updatedFiltersMetadata,
            refreshLastCheckTime r.store installedAndEnabledFilters now,
            decide (0 < r.updatedFiltersMetadata.length)⟩) := by
  constructor
  · intro h
    rcases h with h | h
    · simp [autoUpdateFilters, h]
    · by_cases hd : filteringDisabled = true
      · simp [autoUpdateFilters, hd]
      · simp [autoUpdateFilters, hd, h]
  · have hmap : ∀ l : List Nat,
        (l.map (fun id => ({ filterId := id, force := true } :
          FilterUpdateDetail))).map (fun d => d.filterId) = l := by
      intro l
      induction l with
      | nil => rfl
      | cons a rest ih => simp [ih]
    simp [autoUpdateFilters, autoUpdateTasks, hmap]

/-- Concrete instance of `autoUpdateFilters_shortCircuit`: with filtering
disabled and no force flag, the cycle is empty and the store untouched. -/
theorem autoUpdateFilters_shortCircuit_witness :
    autoUpdateFilters (fun _ => true) (fun _ _ => TaskResult.noUpdate) true 3600000
        [(1, { version := "1", expires := 3600, lastUpdateTime := 0,
               lastCheckTime := 0, diffPath := none })] [1] 1000000 false
      = ⟨[], [(1, { version := "1", expires := 3600, lastUpdateTime := 0,
                    lastCheckTime := 0, diffPath := none })], false⟩ :=
  (autoUpdateFilters_shortCircuit (fun _ => true)
    (fun _ _ => TaskResult.noUpdate) true 3600000
    [(1, { version := "1", expires := 3600, lastUpdateTime := 0,
           lastCheckTime := 0, diffPath := none })] [1] 1000000).1
    (Or.inl rfl)

theorem refreshEntry_mem (ids : List Nat) (now : Int)
    (p : Nat × FilterVersionRecord) (h : p.1 ∈ ids) :
    (if p.1 ∈ ids then (p.1, { p.2 with lastCheckTime := now }) else p)
      = (p.1, { p.2 with lastCheckTime := now }) := if_pos h

theorem refreshEntry_notMem (ids : List Nat) (now : Int)
    (p : Nat × FilterVersionRecord) (h : p.1 ∉ ids) :
    (if p.1 ∈ ids then (p.1, { p.2 with lastCheckTime := now }) else p)
      = p := if_neg h

theorem storeGet_refreshLastCheckTime (st : VersionStore) (ids : List Nat)
    (now : Int) (k : Nat) :
    storeGet (refreshLastCheckTime st ids now) k
      = if k ∈ ids
        then (storeGet st k).map (fun r => { r with lastCheckTime := now })
        else storeGet st k := by
  induction st with
  | nil =>
      rw [refreshLastCheckTime]
      simp only [List.map_nil]
      split <;> simp [storeGet]
  | cons p rest ih =>
      obtain ⟨k1, v1⟩ := p
      rw [refreshLastCheckTime, List.map_cons]
      rw [refreshLastCheckTime] at ih
      by_cases hmem : k1 ∈ ids
      · rw [refreshEntry_mem ids now (k1, v1) hmem]
        by_cases hk : k1 = k
        · subst hk
          simp [storeGet, hmem]
        · simp only [storeGet, if_neg hk, ih]
      · rw [refreshEntry_notMem ids now (k1, v1) hmem]
        by_cases hk : k1 = k
        · subst hk
          simp [storeGet, hmem]
        · simp only [storeGet, if_neg hk, ih]

/-- The claim that `checkForFiltersUpdates` refreshes `lastCheckTime` for
every input candidate, including those skipped by the recency filtering, fails
on the code: a built-in filter last checked 1 minute before `now` is skipped
by `selectFiltersIdsToUpdate` and keeps its old `lastCheckTime`, because
`refreshLastCheckTime` is called with `filtersToCheck`, not the input ids. -/
theorem checkForFiltersUpdates_skipped_cex :
    (storeGet (checkForFiltersUpdates (fun _ => false) (fun _ => true)
        (fun _ _ => TaskResult.noUpdate)
        [(1, { version := "1", expires := 3600, lastUpdateTime := 0,
               lastCheckTime := 940000, diffPath := none })]
        1000000 [1]).2 1).map (fun r => r.lastCheckTime) ≠ some 1000000 := by
  decide

/-- C5 (amended). After a `checkForFiltersUpdates` cycle, `lastCheckTime` is
set to `now` for exactly the candidates selected by the recency filtering,
even when their update failed or made no change; candidates skipped by the
recency filtering keep their Version Store record unchanged. -/
theorem checkForFiltersUpdates_refresh (isCustom isCommon : Nat → Bool)
    (exec : Nat → Bool → TaskResult) (fvs : VersionStore) (now : Int)
    (filterIds : List Nat) (id : Nat) :
    (id ∈ selectFiltersIdsToUpdate isCustom fvs now filterIds →
      ∀ r : FilterVersionRecord,
        storeGet (checkForFiltersUpdates isCustom isCommon exec fvs now
            filterIds).2 id = some r →
        r.lastCheckTime = now)
    ∧ (id ∉ selectFiltersIdsToUpdate isCustom fvs now filterIds →
        storeGet (checkForFiltersUpdates isCustom isCommon exec fvs now
            filterIds).2 id = storeGet fvs id) := by
  set sel := selectFiltersIdsToUpdate isCustom fvs now filterIds with hsel
  set tasks := sel.map
    (fun i => ({ filterId := i, force := true } : FilterUpdateDetail))
    with htasks
  have hsnd : (checkForFiltersUpdates isCustom isCommon exec fvs now
      filterIds).2
      = refreshLastCheckTime
          (updateFilters isCommon exec tasks fvs).store sel now := rfl
  constructor
  · intro hmem r hr
    rw [hsnd, storeGet_refreshLastCheckTime, if_pos hmem] at hr
    cases hg : storeGet (updateFilters isCommon exec tasks fvs).store id with
    | none => rw [hg] at hr; simp at hr
    | some w =>
        rw [hg] at hr
        have hr2 : some ({ w with lastCheckTime := now }) = some r := hr
        have := Option.some.inj hr2
        rw [← this]
  · intro hnmem
    rw [hsnd, storeGet_refreshLastCheckTime, if_neg hnmem]
    have hvac : ∀ d ∈ tasks, d.filterId = id →
        (exec d.filterId d.force).isSuccess = false := by
      intro d hd hdk
      rcases List.mem_map.mp hd with ⟨i, hi, hie⟩
      have : i = id := by rw [← hie] at hdk; exact hdk
      rw [this] at hi
      exact absurd hi hnmem
    simpa [updateFilters] using
      foldl_runUpdateTask_snd exec tasks id hvac ([], fvs)

/-- Concrete instance of `checkForFiltersUpdates_refresh`: filter 1 was
recently checked and keeps its record; filter 2 was due, its update made no
change, yet its `lastCheckTime` is refreshed to `now`. -/
theorem checkForFiltersUpdates_refresh_witness :
    storeGet (checkForFiltersUpdates (fun _ => false) (fun _ => true)
        (fun _ _ => TaskResult.noUpdate)
        [(1, { version := "1", expires := 3600, lastUpdateTime := 0,
               lastCheckTime := 940000, diffPath := none }),
         (2, { version := "2", expires := 3600, lastUpdateTime := 0,
               lastCheckTime := 0, diffPath := none })]
        1000000 [1, 2]).2 1
      = some { version := "1", expires := 3600, lastUpdateTime := 0,
               lastCheckTime := 940000, diffPath := none }
    ∧ (storeGet (checkForFiltersUpdates (fun _ => false) (fun _ => true)
        (fun _ _ => TaskResult.noUpdate)
        [(1, { version := "1", expires := 3600, lastUpdateTime := 0,
               lastCheckTime := 940000, diffPath := none }),
         (2, { version := "2", expires := 3600, lastUpdateTime := 0,
               lastCheckTime := 0, diffPath := none })]
        1000000 [1, 2]).2 2).map (fun r => r.lastCheckTime)
      = some 1000000 := by
  have h := checkForFiltersUpdates_refresh (fun _ => false) (fun _ => true)
    (fun _ _ => TaskResult.noUpdate)
    [(1, { version := "1", expires := 3600, lastUpdateTime := 0,
           lastCheckTime := 940000, diffPath := none }),
     (2, { version := "2", expires := 3600, lastUpdateTime := 0,
           lastCheckTime := 0, diffPath := none })]
    1000000 [1, 2] 1
  refine ⟨?_, by decide⟩
  rw [h.2 (by decide)]
  decide

/-- JavaScript `Set.add`: append if absent (`Set` keeps insertion order). -/
def setAdd (s : List Nat) (x : Nat) : List Nat :=
  if x ∈ s then s else s ++ [x]

/-- Adding each element of a list in order (`forEach(add)`); with `[]` as the
base this is also `new Set(list)` read back in insertion order. -/
def setAddAll (s : List Nat) (xs : List Nat) : List Nat := xs.foldl setAdd s

/-- State of the lazy-null `AnnoyancesConsentApi` together with its storage:
`consentedFilterIds` is the in-memory set (`null` until materialized),
`storageData` the parsed content of the consent storage key. -/
structure ConsentState where
  consentedFilterIds : Option (List Nat)
  storageData : List Nat
deriving DecidableEq, Repr

/-- `AnnoyancesConsentApi.addFilterIds` (lazy-null version): restores the set
from storage when it is still `null`, adds every given id, and writes the
whole resulting set back to storage. The second component counts the storage
reads performed by the call. -/
def consentAdd (st : ConsentState) (filterIds : List Nat) :
    ConsentState × Nat :=
  match st.consentedFilterIds with
  | none =>
      let restored := setAddAll [] st.storageData
      let mem := setAddAll restored filterIds
      (⟨some mem, mem⟩, 1)
  | some m =>
      let mem := setAddAll m filterIds
      (⟨some mem, mem⟩, 0)

/-- `AnnoyancesConsentApi.isConsentedFilter` (lazy-null version): restores the
set from storage when it is still `null`, then tests membership. The middle
component counts the storage reads performed by the call. -/
def consentIsConsented (st : ConsentState) (id : Nat) :
    (ConsentState × Nat) × Bool :=
  match st.consentedFilterIds with
  | none =>
      let restored := setAddAll [] st.storageData
      ((⟨some restored, st.storageData⟩, 1), decide (id ∈ restored))
  | some m => ((st, 0), decide (id ∈ m))

/-- The consented set prior to a call: the materialized set when present,
otherwise the persisted one it would be restored from. -/
def priorConsented (st : ConsentState) : List Nat :=
  match st.consentedFilterIds with
  | some m => m
  | none => st.storageData

theorem mem_setAdd (s : List Nat) (a x : Nat) :
    x ∈ setAdd s a ↔ x ∈ s ∨ x = a := by
  by_cases h : a ∈ s
  · rw [setAdd, if_pos h]
    constructor
    · exact Or.inl
    · rintro (hx | rfl)
      · exact hx
      · exact h
  · rw [setAdd, if_neg h]
    simp

theorem mem_setAddAll (xs : List Nat) :
    ∀ s x, x ∈ setAddAll s xs ↔ x ∈ s ∨ x ∈ xs := by
  induction xs with
  | nil => intro s x; simp [setAddAll]
  | cons a rest ih =>
      intro s x
      have hstep : setAddAll s (a :: rest) = setAddAll (setAdd s a) rest := rfl
      rw [hstep, ih (setAdd s a) x, mem_setAdd]
      simp only [List.mem_cons]
      tauto

/-- C6. `addFilterIds` of the Consent Tracker is idempotent and additive: the
resulting in-memory set is flushed to storage with the call (both agree), and
the resulting set holds exactly the union of the prior consented set and the
given ids. -/
theorem consentAdd_union (st : ConsentState) (filterIds : List Nat) :
    ((consentAdd st filterIds).1.consentedFilterIds
        = some ((consentAdd st filterIds).1.storageData))
    ∧ ∀ x : Nat, x ∈ (consentAdd st filterIds).1.storageData ↔
        (x ∈ priorConsented st ∨ x ∈ filterIds) := by
  cases hm : st.consentedFilterIds with
  | none =>
      refine ⟨by simp [consentAdd, hm], ?_⟩
      intro x
      rw [show (consentAdd st filterIds).1.storageData
          = setAddAll (setAddAll [] st.storageData) filterIds from by
            simp [consentAdd, hm]]
      rw [mem_setAddAll, mem_setAddAll]
      simp [priorConsented, hm]
  | some m =>
      refine ⟨by simp [consentAdd, hm], ?_⟩
      intro x
      rw [show (consentAdd st filterIds).1.storageData
          = setAddAll m filterIds from by simp [consentAdd, hm]]
      rw [mem_setAddAll]
      simp [priorConsented, hm]

/-- Concrete instance of `consentAdd_union`: `addFilterIds([1,2])` then
`addFilterIds([2,3])` persists the set `{1,2,3}`; `addFilterIds([1])` twice
persists `{1}`. -/
theorem consentAdd_union_witness :
    ((consentAdd (consentAdd ⟨none, []⟩ [1, 2]).1 [2, 3]).1.storageData
        = [1, 2, 3])
    ∧ 3 ∈ (consentAdd (consentAdd ⟨none, []⟩ [1, 2]).1 [2, 3]).1.storageData
    ∧ (consentAdd (consentAdd ⟨none, []⟩ [1]).1 [1]).1.storageData = [1] := by
  refine ⟨by decide, ?_, by decide⟩
  exact ((consentAdd_union (consentAdd ⟨none, []⟩ [1, 2]).1 [2, 3]).2 3).mpr
    (Or.inr (by decide))

/-- A call against the Consent Tracker: either operation of its interface. -/
inductive ConsentOp where
  | add (filterIds : List Nat)
  | isConsented (id : Nat)

/-- One call of the lazy Consent Tracker: the next state and the number of
storage reads the call performed. -/
def consentStep (st : ConsentState) : ConsentOp → ConsentState × Nat
  | .add filterIds => consentAdd st filterIds
  | .isConsented id => (consentIsConsented st id).1

/-- Total number of storage reads over a sequence of calls. -/
def consentReadsFrom : ConsentState → List ConsentOp → Nat
  | _, [] => 0
  | st, op :: rest =>
      (consentStep st op).2 + consentReadsFrom (consentStep st op).1 rest

theorem consentStep_of_some (st : ConsentState) (op : ConsentOp)
    (h : st.consentedFilterIds.isSome = true) :
    (consentStep st op).2 = 0
      ∧ ((consentStep st op).1.consentedFilterIds).isSome = true := by
  cases hm : st.consentedFilterIds with
  | none => rw [hm] at h; simp at h
  | some m =>
      cases op with
      | add filterIds => simp [consentStep, consentAdd, hm]
      | isConsented id => simp [consentStep, consentIsConsented, hm]

theorem consentReadsFrom_of_some (ops : List ConsentOp) :
    ∀ st : ConsentState, st.consentedFilterIds.isSome = true →
      consentReadsFrom st ops = 0 := by
  induction ops with
  | nil => intro st _; rfl
  | cons op rest ih =>
      intro st h
      have hs := consentStep_of_some st op h
      rw [consentReadsFrom, hs.1, ih (consentStep st op).1 hs.2]

theorem consentStep_of_none (storageData : List Nat) (op : ConsentOp) :
    (consentStep ⟨none, storageData⟩ op).2 = 1
      ∧ ((consentStep ⟨none, storageData⟩ op).1.consentedFilterIds).isSome
          = true := by
  cases op with
  | add filterIds => simp [consentStep, consentAdd]
  | isConsented id => simp [consentStep, consentIsConsented]

/-- C7. Lazy materialization of the Consent Tracker: over any sequence of
`addFilterIds` / `isConsentedFilter` calls starting from the unmaterialized
state, storage is read exactly once when there is at least one call (and never
otherwise); the read happens on the first call, every later call reuses the
materialized set. -/
theorem consent_lazyOnce (storageData : List Nat) (ops : List ConsentOp) :
    consentReadsFrom ⟨none, storageData⟩ ops = min ops.length 1
    ∧ ∀ op : ConsentOp, (consentStep ⟨none, storageData⟩ op).2 = 1 := by
  constructor
  · cases ops with
    | nil => rfl
    | cons op rest =>
        have hs := consentStep_of_none storageData op
        rw [consentReadsFrom, hs.1,
          consentReadsFrom_of_some rest _ hs.2]
        have : min (op :: rest).length 1 = 1 :=
          min_eq_right (Nat.succ_le_succ (Nat.zero_le _))
        rw [this]
  · intro op
    exact (consentStep_of_none storageData op).1

/-- Concrete instance of `consent_lazyOnce`: two adds and a membership check
from a fresh tracker perform exactly one storage read. -/
theorem consent_lazyOnce_witness :
    consentReadsFrom ⟨none, [9]⟩
      [ConsentOp.add [1], ConsentOp.isConsented 9, ConsentOp.add [2]] = 1 := by
  have h := consent_lazyOnce [9]
    [ConsentOp.add [1], ConsentOp.isConsented 9, ConsentOp.add [2]]
  rw [h.1]
  decide

/-- State of the eager-set `AnnoyancesConsentApi` variant together with its
storage: the in-memory set is a plain set, initialized empty. -/
structure EagerConsentState where
  consentedFilterIds : List Nat
  storageData : List Nat
deriving DecidableEq, Repr

/-- Constructor of the eager-set `AnnoyancesConsentApi`: the in-memory set
starts empty, whatever the persisted consent data holds. -/
def eagerInit (storageData : List Nat) : EagerConsentState :=
  ⟨[], storageData⟩

/-- `isConsentedFilter` (eager-set version): a pure membership test on the
in-memory set; no state change and no storage read (read count 0). -/
def eagerIsConsentedFilter (st : EagerConsentState) (id : Nat) :
    (EagerConsentState × Nat) × Bool :=
  ((st, 0), decide (id ∈ st.consentedFilterIds))

/-- `addFilterIds` (eager-set version): loads from storage whenever the
in-memory set is empty, then adds the ids and writes the set back. -/
def eagerAddFilterIds (st : EagerConsentState) (filterIds : List Nat) :
    EagerConsentState × Nat :=
  let loaded :=
    if st.consentedFilterIds = []
    then (setAddAll st.consentedFilterIds st.storageData, 1)
    else (st.consentedFilterIds, 0)
  let mem := setAddAll loaded.1 filterIds
  (⟨mem, mem⟩, loaded.2)

/-- C9. In the eager-set variant, `isConsentedFilter` never reads storage and
never changes state; before any `addFilterIds` call it answers `false` for
every filter id, even one present in the persisted consent data. -/
theorem eagerIsConsented_neverReads (st : EagerConsentState)
    (storageData : List Nat) (id : Nat) (hid : id ∈ storageData) :
    ((eagerIsConsentedFilter st id).1.2 = 0
      ∧ (eagerIsConsentedFilter st id).1.1 = st)
    ∧ (eagerIsConsentedFilter (eagerInit storageData) id).2 = false :=
  ⟨⟨rfl, rfl⟩, by simp [eagerIsConsentedFilter, eagerInit]⟩

/-- Concrete instance of `eagerIsConsented_neverReads`: filter 7 is persisted
as consented, yet a fresh eager tracker answers `false` without reading
storage. -/
theorem eagerIsConsented_neverReads_witness :
    ((eagerIsConsentedFilter (eagerInit [7]) 7).1.2 = 0
      ∧ (eagerIsConsentedFilter (eagerInit [7]) 7).1.1 = eagerInit [7])
    ∧ (eagerIsConsentedFilter (eagerInit [7]) 7).2 = false :=
  eagerIsConsented_neverReads (eagerInit [7]) [7] 7 (by decide)

/-- `AnnoyancesConsentStorage.addFilterIds`: `data` is `undefined` until the
storage is initialized (the second null-check in the source is unreachable
dead code after the throw); each given id is appended only when not already
present. -/
def storageAddFilterIds (data : Option (List Nat)) (filterIds : List Nat) :
    Except String (List Nat) :=
  match data with
  | none => .error "annoyances consent is not initialized"
  | some d => .ok (setAddAll d filterIds)

theorem setAddAll_extends (filterIds : List Nat) :
    ∀ d : List Nat, ∃ t, setAddAll d filterIds = d ++ t
      ∧ ∀ x ∈ t, x ∈ filterIds ∧ x ∉ d := by
  induction filterIds with
  | nil =>
      intro d
      exact ⟨[], by simp [setAddAll], by simp⟩
  | cons a rest ih =>
      intro d
      have hstep : setAddAll d (a :: rest) = setAddAll (setAdd d a) rest := rfl
      by_cases h : a ∈ d
      · have hset : setAdd d a = d := by rw [setAdd, if_pos h]
        rcases ih d with ⟨t, ht1, ht2⟩
        refine ⟨t, by rw [hstep, hset, ht1], ?_⟩
        intro x hx
        exact ⟨List.mem_cons_of_mem a (ht2 x hx).1, (ht2 x hx).2⟩
      · have hset : setAdd d a = d ++ [a] := by rw [setAdd, if_neg h]
        rcases ih (d ++ [a]) with ⟨t, ht1, ht2⟩
        refine ⟨a :: t, ?_, ?_⟩
        · rw [hstep, hset, ht1]
          simp
        · intro x hx
          rcases List.mem_cons.mp hx with h1 | hx2
          · subst h1
            exact ⟨List.mem_cons_self x rest, h⟩
          · refine ⟨List.mem_cons_of_mem a (ht2 x hx2).1, ?_⟩
            intro hxd
            exact (ht2 x hx2).2 (List.mem_append_left _ hxd)

/-- C10. `AnnoyancesConsentStorage.addFilterIds` throws
`annoyances consent is not initialized` whenever the underlying data is not
initialized, instead of materializing it; on initialized data it extends the
existing list in place, appending exactly the ids not already present and
preserving the existing order. -/
theorem storageAddFilterIds_spec (filterIds : List Nat) :
    (storageAddFilterIds none filterIds
        = .error "annoyances consent is not initialized")
    ∧ ∀ d : List Nat,
        storageAddFilterIds (some d) filterIds = .ok (setAddAll d filterIds)
        ∧ (∃ t, setAddAll d filterIds = d ++ t
            ∧ ∀ x ∈ t, x ∈ filterIds ∧ x ∉ d)
        ∧ ∀ x : Nat, x ∈ setAddAll d filterIds ↔ (x ∈ d ∨ x ∈ filterIds) :=
  ⟨rfl, fun d =>
    ⟨rfl, setAddAll_extends filterIds d, fun x => mem_setAddAll filterIds d x⟩⟩

/-- Concrete instance of `storageAddFilterIds_spec`: uninitialized data
raises the not-initialized error. -/
theorem storageAddFilterIds_spec_witness :
    storageAddFilterIds none [1]
      = .error "annoyances consent is not initialized" :=
  (storageAddFilterIds_spec [1]).1

end AGB
